import Mathlib

/-!
Verification of the generative-art repository (CircleArt, MathPatterns,
Supershapes, SunburstEffect, HexagonalCircles).

JavaScript numbers are modelled as real numbers.  Calls to Math.random are
modelled by an explicit stream argument rng : Nat -> Real; every call site
reads a distinct position of the stream (call site j of loop iteration i
reads rng (stride * i + j)).  Nonnegative-base Math.pow is modelled by
Real.rpow; Math.sqrt by Real.sqrt.  For a natural number n, the JavaScript
value Math.ceil(Math.sqrt(n)) is the least k with n <= k * k, and
Math.ceil(n / d) is the natural number (n + d - 1) / d; both are modelled
by the computable functions below.
-/

namespace CircleArt

/-- A point in three dimensional space (THREE.Vector3). -/
abbrev Vec3 := ℝ × ℝ × ℝ

/-- An HSL colour, the triple passed to THREE.Color().setHSL. -/
abbrev Color := ℝ × ℝ × ℝ

inductive ShapeType
  | circle | square | triangle
deriving DecidableEq

inductive Distribution
  | grid | spiral | wave | random
deriving DecidableEq

inductive ColorScheme
  | rainbow | monochrome | gradient | pastel
deriving DecidableEq

inductive MotionPattern
  | orbital | pulse | wave | scatter
deriving DecidableEq

/-- The ShapeParams record of CircleArt.tsx. -/
structure ShapeParams where
  type : ShapeType
  count : ℕ
  size : ℝ
  speed : ℝ
  rotation : ℝ
  distribution : Distribution
  colorScheme : ColorScheme
  motionPattern : MotionPattern
  interactivity : ℝ

/-- Least k with n <= k * k; the value of Math.ceil(Math.sqrt(n)) on a
natural number n. -/
def ceilSqrt (n : ℕ) : ℕ := if n = 0 then 0 else Nat.sqrt (n - 1) + 1

/-- Math.ceil(n / d) on natural numbers. -/
def ceilDiv (n d : ℕ) : ℕ := (n + d - 1) / d

/-- JavaScript remainder a % b for real operands (truncated division). -/
noncomputable def jsMod (a b : ℝ) : ℝ :=
  a - b * if 0 ≤ a / b then (⌊a / b⌋ : ℝ) else -(⌊-(a / b)⌋ : ℝ)

/-- generatePositions of CircleArt.tsx.  The stream rng supplies the
Math.random values; branches that never call Math.random do not read it. -/
noncomputable def generatePositions (p : ShapeParams) (time : ℝ)
    (mousePos : ℝ × ℝ) (rng : ℕ → ℝ) : List Vec3 :=
  let mouseInfluence := p.interactivity / 10
  let mouseVX := mousePos.1 * mouseInfluence
  let mouseVY := mousePos.2 * mouseInfluence
  match p.distribution with
  | .grid =>
    let gridSize := ceilSqrt p.count
    let spacing : ℝ := 10 / gridSize
    (List.range p.count).map fun (i : ℕ) =>
      let x := (i % gridSize : ℕ) * spacing - (spacing * ((gridSize : ℝ) - 1)) / 2
      let y := (i / gridSize : ℕ) * spacing - (spacing * ((gridSize : ℝ) - 1)) / 2
      let oxyz : Vec3 :=
        match p.motionPattern with
        | .orbital =>
          let angle := ((i : ℝ) / p.count) * Real.pi * 2 + time
          (Real.cos angle * (0.5 + (i % 5 : ℕ) * 0.1),
           Real.sin angle * (0.5 + (i % 3 : ℕ) * 0.1), 0)
        | .pulse =>
          let pulseScale := Real.sin (time * 2 + i * 0.1) * 0.3 + 1
          (x * (pulseScale - 1), y * (pulseScale - 1),
           Real.sin (time + i * 0.05) * 0.5)
        | .wave =>
          (Real.sin (time * 2 + y * 0.5) * 0.5,
           Real.cos (time * 1.5 + x * 0.5) * 0.5,
           Real.sin (time + x * 0.5 + y * 0.5) * 0.5)
        | .scatter =>
          (Real.sin (time + i) * 0.7,
           Real.cos (time * 1.3 + i * 0.7) * 0.7,
           Real.sin (time * 0.7 + i * 0.3) * 0.7)
      (x + oxyz.1 + mouseVX * (1 + Real.sin (time + i * 0.1)),
       y + oxyz.2.1 + mouseVY * (1 + Real.cos (time + i * 0.1)),
       oxyz.2.2)
  | .spiral =>
    let turns := min (ceilDiv p.count 50) 8
    let angleStep := (Real.pi * 2 * turns) / p.count
    (List.range p.count).map fun (i : ℕ) =>
      let angle := i * angleStep + time * (0.2 + (i % 10 : ℕ) * 0.01)
      let radius := ((i : ℝ) / p.count) * 7 + 0.5
      let x := Real.cos angle * radius
      let y := Real.sin angle * radius
      let xyz : Vec3 :=
        match p.motionPattern with
        | .orbital =>
          let orbitAngle := time * (1 + (i % 5 : ℕ) * 0.1)
          (x + Real.cos orbitAngle * 0.3, y + Real.sin orbitAngle * 0.3, 0)
        | .pulse =>
          let pulseScale := Real.sin (time * 2 + i * 0.1) * 0.3 + 1
          (x * pulseScale, y * pulseScale, Real.sin (time + i * 0.05) * 0.5)
        | .wave =>
          let waveOffset := Real.sin (angle * 3 + time * 2) * 0.5
          (x + waveOffset * Real.cos (angle + Real.pi / 2),
           y + waveOffset * Real.sin (angle + Real.pi / 2),
           Real.sin (time + angle) * 0.5)
        | .scatter =>
          let scatterAmount := 0.7 + Real.sin (time + i * 0.2) * 0.3
          (x + (rng (3 * i) - 0.5) * scatterAmount,
           y + (rng (3 * i + 1) - 0.5) * scatterAmount,
           (rng (3 * i + 2) - 0.5) * scatterAmount)
      (xyz.1 + mouseVX * (Real.sin (time + i * 0.05) + 1),
       xyz.2.1 + mouseVY * (Real.cos (time + i * 0.05) + 1),
       xyz.2.2)
  | .wave =>
    let cols := ceilSqrt (p.count * 2)
    let rows := ceilDiv p.count cols
    let xSpacing : ℝ := 12 / cols
    let ySpacing : ℝ := 8 / rows
    (List.range p.count).map fun (i : ℕ) =>
      let col := i % cols
      let row := i / cols
      let x := (col : ℝ) * xSpacing - (xSpacing * ((cols : ℝ) - 1)) / 2
      let y := (row : ℝ) * ySpacing - (ySpacing * ((rows : ℝ) - 1)) / 2
      let waveOffset := Real.sin (time * 0.5 + col * 0.5 + row * 0.5) * 1.5
      let xyz : Vec3 :=
        match p.motionPattern with
        | .orbital =>
          let angle := time + ((col : ℝ) + row) * 0.1
          (x + Real.cos angle * 0.3, y + Real.sin angle * 0.3, waveOffset * 0.3)
        | .pulse =>
          let pulseScale := Real.sin (time + ((col : ℝ) + row) * 0.1) * 0.3 + 1
          (x * pulseScale, y * pulseScale, waveOffset * 0.5)
        | .wave =>
          (x + Real.sin (time + row * 0.5) * 0.5,
           y + waveOffset * 0.5,
           Real.cos (time * 0.7 + col * 0.3) * 0.5)
        | .scatter =>
          let scatterAmount := 0.5 + Real.sin (time + i * 0.1) * 0.2
          (x + (rng (3 * i) - 0.5) * scatterAmount,
           y + (rng (3 * i + 1) - 0.5) * scatterAmount,
           waveOffset * 0.5 + (rng (3 * i + 2) - 0.5) * scatterAmount)
      (xyz.1 + mouseVX * Real.sin (time + col * 0.2),
       xyz.2.1 + mouseVY * Real.cos (time + row * 0.2),
       xyz.2.2)
  | .random =>
    (List.range p.count).map fun (i : ℕ) =>
      let angle := rng (3 * i) * Real.pi * 2
      let radius := rng (3 * i + 1) * 8
      let x := Real.cos angle * radius
      let y := Real.sin angle * radius
      let xyz : Vec3 :=
        match p.motionPattern with
        | .orbital =>
          let orbitSpeed := 0.5 + rng (3 * i + 2) * 0.5
          let orbitAngle := time * orbitSpeed
          (x + Real.cos orbitAngle * 0.8, y + Real.sin orbitAngle * 0.8, 0)
        | .pulse =>
          let pulseScale := Real.sin (time * 2 + i * 0.1) * 0.3 + 1
          (x * pulseScale, y * pulseScale, Real.sin (time + i * 0.05) * 0.8)
        | .wave =>
          let waveOffset := Real.sin (time + x * 0.5 + y * 0.5) * 0.8
          (x + waveOffset * 0.3, y + waveOffset * 0.3, waveOffset)
        | .scatter =>
          let drift := ((i : ℝ) / p.count) * Real.pi * 2
          (x + Real.cos (drift + time) * 0.5,
           y + Real.sin (drift + time) * 0.5,
           (rng (3 * i + 2) - 0.5) * 0.5)
      (xyz.1 + mouseVX * (1 + Real.sin (time + i * 0.1) * 0.5),
       xyz.2.1 + mouseVY * (1 + Real.cos (time + i * 0.1) * 0.5),
       xyz.2.2)

/-- generateColors of CircleArt.tsx.  The rng argument is the ambient
Math.random stream of the embedding convention; the colour code never
samples it. -/
noncomputable def generateColors (p : ShapeParams) (time : ℝ)
    (rng : ℕ → ℝ) : List Color :=
  match p.colorScheme with
  | .rainbow =>
    (List.range p.count).map fun (i : ℕ) =>
      (jsMod ((i : ℝ) / p.count + time * 0.1) 1, 0.7, 0.5)
  | .monochrome =>
    (List.range p.count).map fun (i : ℕ) =>
      let baseHue := jsMod (time * 0.05) 1
      (baseHue, 0.6, 0.3 + ((i : ℝ) / p.count) * 0.5)
  | .gradient =>
    (List.range p.count).map fun (i : ℕ) =>
      let hue1 := jsMod (time * 0.1) 1
      let hue2 := jsMod (hue1 + 0.5) 1
      let mixRatio := (i : ℝ) / p.count
      (hue1 * (1 - mixRatio) + hue2 * mixRatio, 0.7, 0.5)
  | .pastel =>
    (List.range p.count).map fun (i : ℕ) =>
      (jsMod (((i : ℝ) / p.count) * 0.7 + time * 0.1) 1, 0.3, 0.7)

end CircleArt

namespace CircleArt

/-- Concrete parameter set for the nondeterminism counterexample:
count 1, distribution random, motion pattern pulse, interactivity 0. -/
def cexParams : ShapeParams :=
  ⟨.circle, 1, 0.15, 1, 45, .random, .rainbow, .pulse, 0⟩

/-- The all-zero Math.random stream. -/
def rngZero : ℕ → ℝ := fun _ => 0

/-- The constant one-half Math.random stream. -/
noncomputable def rngHalf : ℕ → ℝ := fun _ => 1 / 2

/-- C1 counterexample: with the random distribution, two evaluations of
generatePositions with identical parameters, time and mouse position but
different Math.random draws return different lists, so the claimed
determinism fails for the random distribution. -/
theorem generatePositions_not_deterministic :
    generatePositions cexParams 0 (0, 0) rngZero ≠
      generatePositions cexParams 0 (0, 0) rngHalf := by
  have hA : generatePositions cexParams 0 (0, 0) rngZero = [(0, 0, 0)] := by
    norm_num [generatePositions, cexParams, rngZero, List.range_succ,
      List.range_zero, Real.sin_zero, Real.cos_zero]
  have hpi : (1 / 2 : ℝ) * Real.pi * 2 = Real.pi := by ring
  have hB : generatePositions cexParams 0 (0, 0) rngHalf = [(-4, 0, 0)] := by
    norm_num [generatePositions, cexParams, rngHalf, List.range_succ,
      List.range_zero, hpi, Real.sin_zero, Real.cos_zero, Real.sin_pi,
      Real.cos_pi]
  rw [hA, hB]
  intro h
  have h0 : (0 : ℝ) = -4 := congrArg (fun l => (l.headI : Vec3).1) h
  norm_num at h0

/-- C1 (amended): generateColors is deterministic for every colour scheme,
and generatePositions is independent of the Math.random stream exactly on
the branches that never call Math.random: every motion pattern under the
grid distribution, and the orbital, pulse and wave motion patterns under
the spiral and wave distributions.  The random distribution, and the
scatter motion pattern under spiral and wave, read the stream. -/
theorem generate_deterministic_without_random :
    (∀ (p : ShapeParams) (time : ℝ) (mousePos : ℝ × ℝ) (rng₁ rng₂ : ℕ → ℝ),
      p.distribution ≠ .random →
      (p.motionPattern = .scatter → p.distribution = .grid) →
      generatePositions p time mousePos rng₁ =
        generatePositions p time mousePos rng₂) ∧
    (∀ (p : ShapeParams) (time : ℝ) (rng₁ rng₂ : ℕ → ℝ),
      generateColors p time rng₁ = generateColors p time rng₂) := by
  constructor
  · rintro ⟨ty, count, size, speed, rot, dist, cs, mp, inter⟩ time mousePos
      rng₁ rng₂ h₁ h₂
    cases dist <;> cases mp <;> first
      | rfl
      | (exact absurd (h₂ rfl) (by simp))
      | (exact absurd rfl h₁)
  · rintro ⟨ty, count, size, speed, rot, dist, cs, mp, inter⟩ time rng₁ rng₂
    cases cs <;> rfl

/-- Witness for the amended C1 theorem at a concrete parameter set. -/
theorem generate_deterministic_without_random_witness :
    generatePositions ⟨.circle, 200, 0.15, 1, 45, .spiral, .rainbow,
        .orbital, 7⟩ 1 (2, 3) rngZero =
      generatePositions ⟨.circle, 200, 0.15, 1, 45, .spiral, .rainbow,
        .orbital, 7⟩ 1 (2, 3) (fun n => n) :=
  generate_deterministic_without_random.1 _ 1 (2, 3) rngZero (fun n => n)
    (by simp) (by simp)

/-- C8: for every parameter record with count at least one, every branch of
generatePositions returns exactly count positions and every branch of
generateColors returns exactly count colours. -/
theorem generate_length (p : ShapeParams) (time : ℝ) (mousePos : ℝ × ℝ)
    (rng : ℕ → ℝ) (hcount : 1 ≤ p.count) :
    (generatePositions p time mousePos rng).length = p.count ∧
    (generateColors p time rng).length = p.count := by
  obtain ⟨ty, count, size, speed, rot, dist, cs, mp, inter⟩ := p
  constructor
  · cases dist <;> simp [generatePositions]
  · cases cs <;> simp only [generateColors, List.length_map, List.length_range]

/-- Witness for C8 at the default parameter record. -/
theorem generate_length_witness :
    1 ≤ (200 : ℕ) ∧
    ((generatePositions ⟨.circle, 200, 0.15, 1, 45, .spiral, .rainbow,
        .orbital, 7⟩ 0 (0, 0) rngZero).length = 200 ∧
      (generateColors ⟨.circle, 200, 0.15, 1, 45, .spiral, .rainbow,
        .orbital, 7⟩ 0 rngZero).length = 200) :=
  ⟨by norm_num,
    generate_length ⟨.circle, 200, 0.15, 1, 45, .spiral, .rainbow,
      .orbital, 7⟩ 0 (0, 0) rngZero (by norm_num)⟩

end CircleArt

namespace Sunburst

/-- The SunburstParticle class of the sunburst effect.  The colour is the
(hue, saturation, lightness) triple of the hsl string. -/
structure SunburstParticle where
  position : ℝ × ℝ
  velocity : ℝ × ℝ
  size : ℝ
  color : ℝ × ℝ × ℝ
  alpha : ℝ
  rotation : ℝ
  rotationSpeed : ℝ
  lifespan : ℝ
  maxLifespan : ℝ

/-- The SunburstParticle constructor.  The stream rng supplies the eight
Math.random values in the order the constructor draws them. -/
noncomputable def mkParticle (x y : ℝ) (rng : ℕ → ℝ) : SunburstParticle :=
  let angle := rng 0 * Real.pi * 2
  let speed := rng 1 * 5 + 2
  let hue := rng 2 * 60 + 10
  let lightness := rng 3 * 20 + 50
  let maxLifespan := 120 + rng 7 * 120
  { position := (x, y)
    velocity := (Real.cos angle * speed, Real.sin angle * speed)
    size := rng 4 * 50 + 20
    color := (hue, 100, lightness)
    alpha := 1
    rotation := rng 5 * Real.pi * 2
    rotationSpeed := (rng 6 - 0.5) * 0.1
    lifespan := maxLifespan
    maxLifespan := maxLifespan }

/-- SunburstParticle.update: moves by the velocity, damps the velocity,
advances the rotation, shrinks the size, decrements the lifespan, recomputes
alpha, and reports whether the particle is still alive. -/
noncomputable def update (p : SunburstParticle) : SunburstParticle × Bool :=
  let lifespan := p.lifespan - 1
  ({ p with
      position := (p.position.1 + p.velocity.1, p.position.2 + p.velocity.2)
      velocity := (p.velocity.1 * 0.97, p.velocity.2 * 0.97)
      rotation := p.rotation + p.rotationSpeed
      size := p.size * 0.99
      lifespan := lifespan
      alpha := lifespan / p.maxLifespan },
    if 0 < lifespan then true else false)

/-- The particle-retention logic of the animation loop of SunburstEffect:
each particle is updated, and it is pushed onto the list kept for the next
frame exactly when its update returned true. -/
noncomputable def animateStep (ps : List SunburstParticle) :
    List SunburstParticle :=
  ps.foldl (fun acc p =>
    let r := update p
    if r.2 then acc ++ [r.1] else acc) []

/-- Spec-side description of the retention logic, following the words of
the claim: the particles kept for the next frame are exactly the updated
particles whose update returned true, in order. -/
noncomputable def survivorsSpec (ps : List SunburstParticle) :
    List SunburstParticle :=
  (ps.map update).filterMap fun r => if r.2 then some r.1 else none

theorem animateStep_foldl_eq (ps : List SunburstParticle)
    (acc : List SunburstParticle) :
    ps.foldl (fun acc p =>
      let r := update p
      if r.2 then acc ++ [r.1] else acc) acc = acc ++ survivorsSpec ps := by
  induction ps generalizing acc with
  | nil => simp [survivorsSpec]
  | cons p rest ih =>
    simp only [List.foldl_cons, survivorsSpec, List.map_cons,
      List.filterMap_cons]
    by_cases h : (update p).2 <;> simp [h, ih, survivorsSpec]

/-- C4: update decrements the lifespan by exactly one, sets alpha to the
new lifespan divided by maxLifespan, and returns true exactly when the new
lifespan is strictly positive; the animation loop keeps for the next frame
exactly the updated particles whose update returned true. -/
theorem update_lifespan_alpha_alive :
    (∀ p : SunburstParticle,
      (update p).1.lifespan = p.lifespan - 1 ∧
      (update p).1.alpha = (p.lifespan - 1) / p.maxLifespan ∧
      ((update p).2 = true ↔ 0 < p.lifespan - 1)) ∧
    ∀ ps : List SunburstParticle, animateStep ps = survivorsSpec ps := by
  constructor
  · intro p
    refine ⟨rfl, rfl, ?_⟩
    simp only [update]
    by_cases h : 0 < p.lifespan - 1 <;> simp [h]
  · intro ps
    simpa using animateStep_foldl_eq ps []

/-- maxLifespan is not changed by update. -/
theorem update_maxLifespan (p : SunburstParticle) :
    (update p).1.maxLifespan = p.maxLifespan := rfl

/-- n repeated updates of a particle (keeping the particle component). -/
noncomputable def iterUpdate : ℕ → SunburstParticle → SunburstParticle
  | 0, p => p
  | n + 1, p => (update (iterUpdate n p)).1

theorem iterUpdate_lifespan (n : ℕ) (p : SunburstParticle) :
    (iterUpdate n p).lifespan = p.lifespan - n := by
  induction n with
  | zero => simp [iterUpdate]
  | succ n ih =>
    simp only [iterUpdate, (update_lifespan_alpha_alive.1 _).1, ih]
    push_cast
    ring

theorem iterUpdate_maxLifespan (n : ℕ) (p : SunburstParticle) :
    (iterUpdate n p).maxLifespan = p.maxLifespan := by
  induction n with
  | zero => rfl
  | succ n ih => simp only [iterUpdate, update_maxLifespan, ih]

/-- C7: with Math.random values in [0, 1), the constructor sets maxLifespan
to at most 240, and from the 240th call on every update returns false, so
repeated stepping of any particle reaches the dead state and stays there. -/
theorem particle_dies_within_240 (x y : ℝ) (rng : ℕ → ℝ)
    (hrng : ∀ k, 0 ≤ rng k ∧ rng k < 1) :
    (mkParticle x y rng).maxLifespan ≤ 240 ∧
    ∀ n : ℕ, 239 ≤ n →
      (update (iterUpdate n (mkParticle x y rng))).2 = false := by
  have h7 := hrng 7
  have hmax : (mkParticle x y rng).maxLifespan = 120 + rng 7 * 120 := rfl
  have hlife : (mkParticle x y rng).lifespan = 120 + rng 7 * 120 := rfl
  constructor
  · rw [hmax]; nlinarith [h7.1, h7.2]
  · intro n hn
    have hcast : (239 : ℝ) ≤ (n : ℝ) := by exact_mod_cast hn
    have hl : (iterUpdate n (mkParticle x y rng)).lifespan - 1 ≤ 0 := by
      rw [iterUpdate_lifespan, hlife]
      nlinarith [h7.1, h7.2]
    have hnot : ¬ (0:ℝ) < (iterUpdate n (mkParticle x y rng)).lifespan - 1 := by
      linarith
    simp only [update]
    simp [hnot]

/-- Witness for C7: the all-zero stream gives maxLifespan 120 and the 240th
update of the resulting particle returns false. -/
theorem particle_dies_within_240_witness :
    (mkParticle 0 0 (fun _ => 0)).maxLifespan ≤ 240 ∧
    (update (iterUpdate 239 (mkParticle 0 0 (fun _ => 0)))).2 = false :=
  ⟨(particle_dies_within_240 0 0 (fun _ => 0)
      (fun k => by norm_num)).1,
    (particle_dies_within_240 0 0 (fun _ => 0)
      (fun k => by norm_num)).2 239 (le_refl 239)⟩

end Sunburst

namespace Supershapes

/-- The SuperformulaParams record of MathPatterns.tsx (Supershapes). -/
structure SuperformulaParams where
  a : ℝ
  b : ℝ
  m : ℝ
  n1 : ℝ
  n2 : ℝ
  n3 : ℝ
  scale : ℝ
  segments : ℕ
  color : String
  wireframe : Bool

inductive Anim
  | rotate | pulse | morph | wave
deriving DecidableEq

/-- The ShapeParams record of MathPatterns.tsx (Supershapes). -/
structure ShapeParams where
  type : String
  animation : Anim
  superformula : SuperformulaParams
  segments : Option ℕ
  thickness : Option ℝ
  tubeSegments : Option ℕ
  tubularSegments : Option ℕ
  meshType : Option String

/-- The superformula function of MathPatterns.tsx, transcribed step by
step (part1, part2, their powers, inside, final power). -/
noncomputable def superformula (theta : ℝ) (p : SuperformulaParams) : ℝ :=
  let part1 := |Real.cos (p.m * theta / 4) / p.a|
  let part2 := |Real.sin (p.m * theta / 4) / p.b|
  let part1Pow := Real.rpow part1 p.n2
  let part2Pow := Real.rpow part2 p.n3
  let inside := part1Pow + part2Pow
  Real.rpow inside (-1 / p.n1)

/-- Spec-side closed form: the supershape radius formula
(|cos(m theta/4)/a| ^ n2 + |sin(m theta/4)/b| ^ n3) ^ (-1/n1). -/
noncomputable def supershapeRadiusFormula
    (theta a b m n1 n2 n3 : ℝ) : ℝ :=
  Real.rpow
    (Real.rpow |Real.cos (m * theta / 4) / a| n2 +
      Real.rpow |Real.sin (m * theta / 4) / b| n3)
    (-1 / n1)

/-- C2: for every angle and parameter record, superformula returns exactly
the closed-form supershape radius formula in its parameters; it performs no
other computation on its inputs. -/
theorem superformula_eq_radius_formula (theta : ℝ) (p : SuperformulaParams) :
    superformula theta p =
      supershapeRadiusFormula theta p.a p.b p.m p.n1 p.n2 p.n3 := rfl

/-- The default shape parameter records of MathPatterns.tsx. -/
def defaultSuperellipseParams : ShapeParams :=
  ⟨"superellipse", .rotate, ⟨1, 1, 8, 2, 15, 15, 1, 128, "#4080ff", false⟩,
    none, none, none, none, none⟩

def defaultSuperellipsoidParams : ShapeParams :=
  ⟨"superellipsoid", .rotate, ⟨1, 1, 6, 1, 10, 10, 1, 64, "#ff40a0", false⟩,
    none, none, none, none, none⟩

def defaultSupertoroidParams : ShapeParams :=
  ⟨"supertoroid", .rotate, ⟨1, 1, 4, 0.5, 1.7, 1.7, 1, 64, "#40ff80", false⟩,
    none, some 0.3, some 32, some 128, none⟩

def defaultMobiusParams : ShapeParams :=
  ⟨"mobius", .rotate, ⟨1, 1, 0, 1, 1, 1, 1, 128, "#ffff40", false⟩,
    none, some 0.2, some 24, none, none⟩

/-- The initial shapeParams record of the Supershapes component, as a total
function on shape names (a JavaScript record lookup of an absent key is
never performed by the handler). -/
noncomputable def initialShapeParams : String → ShapeParams := fun key =>
  if key = "superellipse" then defaultSuperellipseParams
  else if key = "superellipsoid" then defaultSuperellipsoidParams
  else if key = "supertoroid" then defaultSupertoroidParams
  else defaultMobiusParams

/-- The animation list of the A-key branch of handleKeyDown. -/
def animations : List Anim := [.rotate, .pulse, .morph, .wave]

/-- animations[(animations.indexOf(current.animation) + 1) % 4]. -/
def nextAnimation (a : Anim) : Anim :=
  animations.getD ((animations.indexOf a + 1) % animations.length) .rotate

/-- The A-key branch of handleKeyDown of the Supershapes component:
spread the previous record and replace the entry of the active shape by a
copy whose animation field is advanced. -/
noncomputable def pressA (prev : String → ShapeParams)
    (activeShape : String) : String → ShapeParams :=
  Function.update prev activeShape
    { prev activeShape with
        animation := nextAnimation (prev activeShape).animation }

/-- C10: pressing A changes no entry other than the active shape, changes
only the animation field of the active entry (advancing it through the
cycle rotate, pulse, morph, wave), and four presses restore the whole
record. -/
theorem pressA_frame_and_cycle :
    (∀ (prev : String → ShapeParams) (activeShape k : String),
      k ≠ activeShape → pressA prev activeShape k = prev k) ∧
    (∀ (prev : String → ShapeParams) (activeShape : String),
      pressA prev activeShape activeShape =
        { prev activeShape with
            animation := nextAnimation (prev activeShape).animation }) ∧
    (∀ a : Anim,
      nextAnimation (nextAnimation (nextAnimation (nextAnimation a))) = a) ∧
    (∀ (prev : String → ShapeParams) (activeShape : String),
      pressA (pressA (pressA (pressA prev activeShape) activeShape)
        activeShape) activeShape = prev) := by
  refine ⟨?_, ?_, ?_, ?_⟩
  · intro prev activeShape k hk
    exact Function.update_noteq hk _ _
  · intro prev activeShape
    exact Function.update_same _ _ _
  · intro a
    cases a <;> rfl
  · intro prev activeShape
    have hcycle : ∀ a : Anim,
        nextAnimation (nextAnimation (nextAnimation (nextAnimation a))) = a := by
      intro a; cases a <;> rfl
    simp only [pressA, Function.update_same, Function.update_idem]
    have : { prev activeShape with
        animation := nextAnimation (nextAnimation (nextAnimation
          (nextAnimation (prev activeShape).animation))) } = prev activeShape := by
      rw [hcycle]
    rw [this]
    exact Function.update_eq_self _ _

/-- Witness for C10 at the initial record with active shape
superellipsoid: the mobius entry is untouched by the press. -/
theorem pressA_frame_and_cycle_witness :
    pressA initialShapeParams "superellipsoid" "mobius" =
      initialShapeParams "mobius" :=
  pressA_frame_and_cycle.1 initialShapeParams "superellipsoid" "mobius"
    (by decide)

end Supershapes

namespace Effects

/-- The event names used by the canvas effects. -/
inductive EventName
  | resize | mousemove | mousedown | mouseup | mouseleave
deriving DecidableEq

/-- The externally visible actions an effect body or cleanup performs. -/
inductive Action
  | addWindowListener : EventName → Action
  | removeWindowListener : EventName → Action
  | addCanvasListener : EventName → Action
  | removeCanvasListener : EventName → Action
  | requestFrame
  | cancelFrame
  | resizeCanvas
  | draw
deriving DecidableEq

/-- An effect is modelled by the pair (body trace, cleanup trace); an early
return produces no trace and registers no cleanup. -/
abbrev EffectTraces := List Action × List Action

/-- The canvas-initialisation effect of SunburstEffect: guard on the canvas
ref and on getContext, then install the resize listener and size the
canvas; the cleanup removes the listener and cancels the stored
animation-frame handle. -/
def sunburstInitEffect (canvas ctx : Bool) : EffectTraces :=
  if !canvas then ([], [])
  else if !ctx then ([], [])
  else ([.addWindowListener .resize, .resizeCanvas],
        [.removeWindowListener .resize, .cancelFrame])

/-- The animation effect of SunburstEffect: guards, then one call of
animate, which draws and requests the next frame; the cleanup cancels the
stored handle. -/
def sunburstAnimEffect (canvas ctx : Bool) : EffectTraces :=
  if !canvas then ([], [])
  else if !ctx then ([], [])
  else ([.draw, .requestFrame], [.cancelFrame])

/-- The setup effect of HexagonalCircles (geodesic sphere version):
guards, then the five event listeners and the initial resize; the cleanup
removes the five listeners and cancels the stored handle. -/
def hexInitEffect (canvas ctx : Bool) : EffectTraces :=
  if !canvas then ([], [])
  else if !ctx then ([], [])
  else ([.addWindowListener .resize, .addCanvasListener .mousemove,
         .addCanvasListener .mousedown, .addCanvasListener .mouseup,
         .addCanvasListener .mouseleave, .resizeCanvas],
        [.removeWindowListener .resize, .removeCanvasListener .mousemove,
         .removeCanvasListener .mousedown, .removeCanvasListener .mouseup,
         .removeCanvasListener .mouseleave, .cancelFrame])

/-- The animation effect of HexagonalCircles (geodesic sphere version). -/
def hexAnimEffect (canvas ctx : Bool) : EffectTraces :=
  if !canvas then ([], [])
  else if !ctx then ([], [])
  else ([.draw, .requestFrame], [.cancelFrame])

/-- The setup effect of the canvas MathPatterns component: guards, then the
four event listeners (window resize, canvas mousemove, canvas mousedown,
window mouseup) and the initial resize; the cleanup removes the four
listeners and cancels the stored handle. -/
def mathPatternsInitEffect (canvas ctx : Bool) : EffectTraces :=
  if !canvas then ([], [])
  else if !ctx then ([], [])
  else ([.addWindowListener .resize, .addCanvasListener .mousemove,
         .addCanvasListener .mousedown, .addWindowListener .mouseup,
         .resizeCanvas],
        [.removeWindowListener .resize, .removeCanvasListener .mousemove,
         .removeCanvasListener .mousedown, .removeWindowListener .mouseup,
         .cancelFrame])

/-- The animation effect of the canvas MathPatterns component. -/
def mathPatternsAnimEffect (canvas ctx : Bool) : EffectTraces :=
  if !canvas then ([], [])
  else if !ctx then ([], [])
  else ([.draw, .requestFrame], [.cancelFrame])

/-- Registration state of the browser as seen by one component: whether an
animation-frame callback of the component is pending, and which window and
canvas listeners it has installed. -/
structure RegState where
  frameRegistered : Bool
  windowListeners : List EventName
  canvasListeners : List EventName
deriving DecidableEq

def applyAction (s : RegState) : Action → RegState
  | .addWindowListener n => { s with windowListeners := s.windowListeners ++ [n] }
  | .removeWindowListener n => { s with windowListeners := s.windowListeners.erase n }
  | .addCanvasListener n => { s with canvasListeners := s.canvasListeners ++ [n] }
  | .removeCanvasListener n => { s with canvasListeners := s.canvasListeners.erase n }
  | .requestFrame => { s with frameRegistered := true }
  | .cancelFrame => { s with frameRegistered := false }
  | .resizeCanvas => s
  | .draw => s

def runTrace (s : RegState) (tr : List Action) : RegState :=
  tr.foldl applyAction s

def emptyState : RegState := ⟨false, [], []⟩

/-- C5: in every canvas effect, if the canvas element is absent or the 2d
context is null, the effect returns early: its body performs no action (no
listener, no resize, no draw, no animation-frame request) and it registers
no cleanup. -/
theorem effects_guard_early_return (canvas ctx : Bool)
    (h : canvas = false ∨ ctx = false) :
    sunburstInitEffect canvas ctx = ([], []) ∧
    sunburstAnimEffect canvas ctx = ([], []) ∧
    hexInitEffect canvas ctx = ([], []) ∧
    hexAnimEffect canvas ctx = ([], []) ∧
    mathPatternsInitEffect canvas ctx = ([], []) ∧
    mathPatternsAnimEffect canvas ctx = ([], []) := by
  rcases h with h | h <;> subst h
  · cases ctx <;> exact ⟨rfl, rfl, rfl, rfl, rfl, rfl⟩
  · cases canvas <;> exact ⟨rfl, rfl, rfl, rfl, rfl, rfl⟩

/-- Witness for C5 with the canvas absent. -/
theorem effects_guard_early_return_witness :
    sunburstInitEffect false true = ([], []) :=
  (effects_guard_early_return false true (Or.inl rfl)).1

/-- C6: running any effect body and then its cleanup from the clean state
leaves the clean state: the cleanup cancels the stored animation-frame
handle and removes every listener the body added, so after teardown no
animation callback of the component remains registered. -/
theorem effects_cleanup_complete (canvas ctx : Bool) :
    runTrace (runTrace emptyState (sunburstInitEffect canvas ctx).1)
      (sunburstInitEffect canvas ctx).2 = emptyState ∧
    runTrace (runTrace emptyState (sunburstAnimEffect canvas ctx).1)
      (sunburstAnimEffect canvas ctx).2 = emptyState ∧
    runTrace (runTrace emptyState (hexInitEffect canvas ctx).1)
      (hexInitEffect canvas ctx).2 = emptyState ∧
    runTrace (runTrace emptyState (hexAnimEffect canvas ctx).1)
      (hexAnimEffect canvas ctx).2 = emptyState ∧
    runTrace (runTrace emptyState (mathPatternsInitEffect canvas ctx).1)
      (mathPatternsInitEffect canvas ctx).2 = emptyState ∧
    runTrace (runTrace emptyState (mathPatternsAnimEffect canvas ctx).1)
      (mathPatternsAnimEffect canvas ctx).2 = emptyState := by
  cases canvas <;> cases ctx <;> exact ⟨rfl, rfl, rfl, rfl, rfl, rfl⟩

end Effects

namespace Geodesic

/-- A vertex of the geodesic sphere. -/
abbrev Vec3 := ℝ × ℝ × ℝ

/-- A triangular face, a triple of vertex indices. -/
abbrev Face := ℕ × ℕ × ℕ

/-- Dot product of two vertices. -/
noncomputable def dot (u v : Vec3) : ℝ := u.1 * v.1 + u.2.1 * v.2.1 + u.2.2 * v.2.2

/-- The normalize helper of the source: divide componentwise by the
Euclidean length sqrt(x*x + y*y + z*z). -/
noncomputable def normalize (v : Vec3) : Vec3 :=
  let length := Real.sqrt (v.1 * v.1 + v.2.1 * v.2.1 + v.2.2 * v.2.2)
  (v.1 / length, v.2.1 / length, v.2.2 / length)

/-- The componentwise midpoint (va + vb) / 2 computed by getMidpoint. -/
noncomputable def mid (u v : Vec3) : Vec3 :=
  ((u.1 + v.1) / 2, (u.2.1 + v.2.1) / 2, (u.2.2 + v.2.2) / 2)

theorem dot_comm (u v : Vec3) : dot u v = dot v u := by
  unfold dot; ring

theorem mid_comm (u v : Vec3) : mid u v = mid v u := by
  simp only [mid, Prod.mk.injEq]
  refine ⟨by ring, by ring, by ring⟩

theorem normalize_dot_left (v w : Vec3) :
    dot (normalize v) w = dot v w / Real.sqrt (dot v v) := by
  simp only [normalize, dot, div_mul_eq_mul_div, div_add_div_same]

theorem normalize_dot_right (v w : Vec3) :
    dot v (normalize w) = dot v w / Real.sqrt (dot w w) := by
  rw [dot_comm, normalize_dot_left, dot_comm]

theorem normalize_unit {v : Vec3} (h : 0 < dot v v) :
    dot (normalize v) (normalize v) = 1 := by
  rw [normalize_dot_left, normalize_dot_right, div_div,
    Real.mul_self_sqrt h.le, div_self (ne_of_gt h)]

theorem dot_normalize_nonneg {v w : Vec3} (h : 0 ≤ dot v w) :
    0 ≤ dot (normalize v) (normalize w) := by
  rw [normalize_dot_left, normalize_dot_right]
  exact div_nonneg (div_nonneg h (Real.sqrt_nonneg _)) (Real.sqrt_nonneg _)

theorem mid_self_pos {u v : Vec3} (hu : dot u u = 1) (hv : dot v v = 1)
    (huv : 0 ≤ dot u v) : 0 < dot (mid u v) (mid u v) := by
  have h1 : dot (mid u v) (mid u v) =
      (dot u u + dot v v + 2 * dot u v) / 4 := by
    simp only [mid, dot]; ring
  rw [h1, hu, hv]; linarith

/-- A unit corner has nonnegative dot product with the normalized midpoint
of any edge it belongs to. -/
theorem dot_corner_midpoint {u v : Vec3} (hu : dot u u = 1)
    (hd : 0 ≤ dot u v) : 0 ≤ dot u (normalize (mid u v)) := by
  rw [normalize_dot_right]
  refine div_nonneg ?_ (Real.sqrt_nonneg _)
  have h1 : dot u (mid u v) = (dot u u + dot u v) / 2 := by
    simp only [mid, dot]; ring
  rw [h1, hu]; linarith

/-- Normalized midpoints of two edges sharing the unit vertex s have
nonnegative dot product when all pairwise dot products are nonnegative. -/
theorem dot_midpoint_midpoint {s x y : Vec3} (hs : dot s s = 1)
    (hsx : 0 ≤ dot s x) (hsy : 0 ≤ dot s y) (hxy : 0 ≤ dot x y) :
    0 ≤ dot (normalize (mid s x)) (normalize (mid s y)) := by
  apply dot_normalize_nonneg
  have h1 : dot (mid s x) (mid s y) =
      (dot s s + dot s y + dot s x + dot x y) / 4 := by
    simp only [mid, dot]; ring
  rw [h1, hs]; linarith

/-- An element of the ring of integers adjoined with the golden ratio,
written a + b * phi. -/
abbrev Zphi := ℤ × ℤ

/-- Multiplication in Zphi, using phi * phi = phi + 1. -/
def zmul (x y : Zphi) : Zphi :=
  (x.1 * y.1 + x.2 * y.2, x.1 * y.2 + x.2 * y.1 + x.2 * y.2)

/-- An exact icosahedron vertex, with coordinates in Zphi. -/
abbrev ZVec := Zphi × Zphi × Zphi

/-- Dot product with coordinates in Zphi. -/
def zdot (u v : ZVec) : Zphi :=
  ((zmul u.1 v.1).1 + (zmul u.2.1 v.2.1).1 + (zmul u.2.2 v.2.2).1,
   (zmul u.1 v.1).2 + (zmul u.2.1 v.2.1).2 + (zmul u.2.2 v.2.2).2)

/-- The golden ratio (1 + sqrt 5) / 2 of the source. -/
noncomputable def phi : ℝ := (1 + Real.sqrt 5) / 2

noncomputable def phiVal (x : Zphi) : ℝ := x.1 + x.2 * phi

noncomputable def phiVec (v : ZVec) : Vec3 :=
  (phiVal v.1, phiVal v.2.1, phiVal v.2.2)

theorem sqrt5_mul_self : Real.sqrt 5 * Real.sqrt 5 = 5 :=
  Real.mul_self_sqrt (by norm_num)

theorem phi_pos : 0 < phi := by
  have := Real.sqrt_nonneg 5
  unfold phi; linarith

theorem phiVal_zmul (x y : Zphi) : phiVal (zmul x y) = phiVal x * phiVal y := by
  simp only [phiVal, zmul, phi]
  push_cast
  linear_combination (-(x.2 : ℝ) * (y.2 : ℝ) / 4) * sqrt5_mul_self

theorem dot_phiVec (u v : ZVec) : dot (phiVec u) (phiVec v) = phiVal (zdot u v) := by
  have h1 := phiVal_zmul u.1 v.1
  have h2 := phiVal_zmul u.2.1 v.2.1
  have h3 := phiVal_zmul u.2.2 v.2.2
  simp only [phiVal, zmul] at h1 h2 h3
  simp only [dot, phiVec, zdot, zmul, phiVal]
  push_cast at h1 h2 h3 ⊢
  linarith

/-- The twelve icosahedron vertices before normalization, with exact
coordinates: the source rows [-1, phi, 0], [1, phi, 0], ... -/
def rawVertices : List ZVec :=
  [((-1, 0), (0, 1), (0, 0)), ((1, 0), (0, 1), (0, 0)),
   ((-1, 0), (0, -1), (0, 0)), ((1, 0), (0, -1), (0, 0)),
   ((0, 0), (-1, 0), (0, 1)), ((0, 0), (1, 0), (0, 1)),
   ((0, 0), (-1, 0), (0, -1)), ((0, 0), (1, 0), (0, -1)),
   ((0, 1), (0, 0), (-1, 0)), ((0, 1), (0, 0), (1, 0)),
   ((0, -1), (0, 0), (-1, 0)), ((0, -1), (0, 0), (1, 0))]

/-- The base vertices of createGeodesicSphere: the icosahedron vertices
mapped through normalize. -/
noncomputable def baseVertices : List Vec3 :=
  rawVertices.map fun v => normalize (phiVec v)

/-- The twenty icosahedron faces of the source. -/
def baseFaces : List Face :=
  [(0, 11, 5), (0, 5, 1), (0, 1, 7), (0, 7, 10), (0, 10, 11),
   (1, 5, 9), (5, 11, 4), (11, 10, 2), (10, 7, 6), (7, 1, 8),
   (3, 9, 4), (3, 4, 2), (3, 2, 6), (3, 6, 8), (3, 8, 9),
   (4, 9, 5), (2, 4, 11), (6, 2, 10), (8, 6, 7), (9, 8, 1)]

def zv0 : ZVec := ((0, 0), (0, 0), (0, 0))

theorem raw_self_dot : ∀ v ∈ rawVertices, zdot v v = (2, 1) := by decide

theorem raw_face_dots : ∀ f ∈ baseFaces,
    zdot (rawVertices.getD f.1 zv0) (rawVertices.getD f.2.1 zv0) = (0, 1) ∧
    zdot (rawVertices.getD f.2.1 zv0) (rawVertices.getD f.2.2 zv0) = (0, 1) ∧
    zdot (rawVertices.getD f.2.2 zv0) (rawVertices.getD f.1 zv0) = (0, 1) := by
  decide

theorem baseFaces_bounds : ∀ f ∈ baseFaces,
    f.1 < 12 ∧ f.2.1 < 12 ∧ f.2.2 < 12 := by decide

end Geodesic

namespace Geodesic

/-- The midpoint cache: association list from ordered index pairs (the
string keys "a-b" of the source) to vertex indices. -/
abbrev Cache := List ((ℕ × ℕ) × ℕ)

/-- The consistent key of the source: the index pair in increasing order. -/
def midKey (a b : ℕ) : ℕ × ℕ := if a < b then (a, b) else (b, a)

/-- Lookup in the midpoint cache. -/
def findKey (k : ℕ × ℕ) : Cache → Option ℕ
  | [] => none
  | e :: rest => if e.1 = k then some e.2 else findKey k rest

/-- Vertex of index i (indexing into the vertex array of the source). -/
noncomputable def vAt (verts : List Vec3) (i : ℕ) : Vec3 :=
  verts.getD i (0, 0, 0)

/-- The getMidpoint helper of createGeodesicSphere: on a cache hit return
the cached index, otherwise normalize the midpoint onto the sphere, push
it and cache its index under the ordered key. -/
noncomputable def getMidpoint (a b : ℕ) (verts : List Vec3) (cache : Cache) :
    ℕ × List Vec3 × Cache :=
  match findKey (midKey a b) cache with
  | some i => (i, verts, cache)
  | none =>
    (verts.length,
     verts ++ [normalize (mid (vAt verts a) (vAt verts b))],
     (midKey a b, verts.length) :: cache)

/-- State during one subdivision pass: the growing vertex array, the
midpoint cache and the new face list built so far. -/
structure SubSt where
  verts : List Vec3
  cache : Cache
  newFaces : List Face

/-- The per-face body of the subdivision loop: three midpoints, then the
four replacement faces [a, ab, ca], [b, bc, ab], [c, ca, bc], [ab, bc, ca]. -/
noncomputable def subdivFace (st : SubSt) (f : Face) : SubSt :=
  let r1 := getMidpoint f.1 f.2.1 st.verts st.cache
  let r2 := getMidpoint f.2.1 f.2.2 r1.2.1 r1.2.2
  let r3 := getMidpoint f.2.2 f.1 r2.2.1 r2.2.2
  ⟨r3.2.1, r3.2.2,
    st.newFaces ++ [(f.1, r1.1, r3.1), (f.2.1, r2.1, r1.1),
      (f.2.2, r3.1, r2.1), (r1.1, r2.1, r3.1)]⟩

/-- One subdivision round over the face list, starting from the given
vertex array and cache. -/
noncomputable def subdivRound (verts : List Vec3) (faces : List Face)
    (cache : Cache) : SubSt :=
  faces.foldl subdivFace ⟨verts, cache, []⟩

/-- createGeodesicSphere of the HexagonalCircles (sphere) file: start from
the normalized icosahedron, and run the requested number of rounds, with a
fresh midpoint cache in each round. -/
noncomputable def createGeodesicSphere : ℕ → List Vec3 × List Face
  | 0 => (baseVertices, baseFaces)
  | n + 1 =>
    let st := subdivRound (createGeodesicSphere n).1
      (createGeodesicSphere n).2 []
    (st.verts, st.newFaces)

noncomputable def subdivideIcosahedronAux :
    ℕ → List Vec3 → List Face → Cache → List Vec3 × List Face × Cache
  | 0, v, f, c => (v, f, c)
  | n + 1, v, f, c =>
    let st := subdivRound v f c
    subdivideIcosahedronAux n st.verts st.newFaces st.cache

/-- subdivideIcosahedron of the HexagonalCircles (dome) file: the same
subdivision loop, but with one midpoint cache shared by all rounds. -/
noncomputable def subdivideIcosahedron (vertices : List Vec3)
    (faces : List Face) (frequency : ℕ) : List Vec3 × List Face :=
  ((subdivideIcosahedronAux frequency vertices faces []).1,
   (subdivideIcosahedronAux frequency vertices faces []).2.1)

theorem subdivFace_newFaces_length (st : SubSt) (f : Face) :
    (subdivFace st f).newFaces.length = st.newFaces.length + 4 := by
  simp [subdivFace]

theorem foldl_newFaces_length (faces : List Face) :
    ∀ st : SubSt, (faces.foldl subdivFace st).newFaces.length =
      st.newFaces.length + 4 * faces.length := by
  induction faces with
  | nil => intro st; simp
  | cons f rest ih =>
    intro st
    simp only [List.foldl_cons]
    rw [ih, subdivFace_newFaces_length, List.length_cons]
    ring

theorem subdivRound_length (verts : List Vec3) (faces : List Face)
    (cache : Cache) :
    (subdivRound verts faces cache).newFaces.length = 4 * faces.length := by
  simp [subdivRound, foldl_newFaces_length]

/-- C9: the midpoint lookup is symmetric in its two arguments (the cache
key orders the indices, and the pushed midpoint is symmetric), and a
repeated lookup of the same edge hits the cache and returns the same
vertex index without growing the vertex array, so a shared edge introduces
exactly one new vertex. -/
theorem getMidpoint_symm_and_reuse (a b : ℕ) (verts : List Vec3)
    (cache : Cache) :
    getMidpoint a b verts cache = getMidpoint b a verts cache ∧
    getMidpoint a b (getMidpoint a b verts cache).2.1
      (getMidpoint a b verts cache).2.2 = getMidpoint a b verts cache := by
  have hkey : midKey a b = midKey b a := by
    unfold midKey
    rcases lt_trichotomy a b with h | h | h
    · rw [if_pos h, if_neg (by omega)]
    · subst h; rw [if_neg (by omega)]
    · rw [if_neg (by omega), if_pos h]
  constructor
  · unfold getMidpoint
    rw [hkey]
    cases hfind : findKey (midKey b a) cache with
    | some i => rfl
    | none => rw [mid_comm]
  · unfold getMidpoint
    cases hfind : findKey (midKey a b) cache with
    | some i => simp [hfind]
    | none => simp [findKey]

end Geodesic

namespace Geodesic

/-- Every vertex of the array lies on the unit sphere. -/
def AllUnit (verts : List Vec3) : Prop := ∀ v ∈ verts, dot v v = 1

/-- A valid, non-obtuse index pair: both indices in range, and the two
vertices have nonnegative dot product (in particular they are not
antipodal, so their midpoint is nonzero). -/
def GoodPair (verts : List Vec3) (i j : ℕ) : Prop :=
  i < verts.length ∧ j < verts.length ∧
    0 ≤ dot (vAt verts i) (vAt verts j)

/-- All three edges of a face are good pairs. -/
def GoodFace (verts : List Vec3) (f : Face) : Prop :=
  GoodPair verts f.1 f.2.1 ∧ GoodPair verts f.2.1 f.2.2 ∧
    GoodPair verts f.2.2 f.1

/-- Every cache entry is in range and stores the index of the normalized
midpoint of its key pair. -/
def GoodCache (verts : List Vec3) (c : Cache) : Prop :=
  ∀ e ∈ c, e.1.1 < verts.length ∧ e.1.2 < verts.length ∧
    e.2 < verts.length ∧
    vAt verts e.2 = normalize (mid (vAt verts e.1.1) (vAt verts e.1.2))

/-- Invariant of the subdivision pass. -/
def GoodSt (st : SubSt) : Prop :=
  AllUnit st.verts ∧ GoodCache st.verts st.cache ∧
    ∀ f ∈ st.newFaces, GoodFace st.verts f

theorem vAt_append {verts : List Vec3} {i : ℕ} (ext : List Vec3)
    (h : i < verts.length) : vAt (verts ++ ext) i = vAt verts i := by
  unfold vAt
  exact List.getD_append _ _ _ _ h

theorem vAt_last (verts : List Vec3) (m : Vec3) :
    vAt (verts ++ [m]) verts.length = m := by
  unfold vAt
  rw [List.getD_append_right _ _ _ _ (le_refl _)]
  simp

theorem vAt_mem {verts : List Vec3} {i : ℕ} (h : i < verts.length) :
    vAt verts i ∈ verts := by
  unfold vAt
  rw [List.getD_eq_getElem _ _ h]
  exact List.getElem_mem h

theorem GoodPair_append {verts : List Vec3} {i j : ℕ} (ext : List Vec3)
    (h : GoodPair verts i j) : GoodPair (verts ++ ext) i j := by
  obtain ⟨hi, hj, hd⟩ := h
  refine ⟨?_, ?_, ?_⟩
  · simp only [List.length_append]; omega
  · simp only [List.length_append]; omega
  · rw [vAt_append ext hi, vAt_append ext hj]; exact hd

theorem GoodFace_append {verts : List Vec3} {f : Face} (ext : List Vec3)
    (h : GoodFace verts f) : GoodFace (verts ++ ext) f :=
  ⟨GoodPair_append ext h.1, GoodPair_append ext h.2.1,
    GoodPair_append ext h.2.2⟩

theorem GoodCache_append {verts : List Vec3} {c : Cache} (ext : List Vec3)
    (h : GoodCache verts c) : GoodCache (verts ++ ext) c := by
  intro e he
  obtain ⟨h1, h2, h3, h4⟩ := h e he
  refine ⟨?_, ?_, ?_, ?_⟩
  · simp only [List.length_append]; omega
  · simp only [List.length_append]; omega
  · simp only [List.length_append]; omega
  · rw [vAt_append ext h3, vAt_append ext h1, vAt_append ext h2]; exact h4

theorem AllUnit_append {verts : List Vec3} {m : Vec3} (h : AllUnit verts)
    (hm : dot m m = 1) : AllUnit (verts ++ [m]) := by
  intro v hv
  rcases List.mem_append.mp hv with h1 | h1
  · exact h v h1
  · rw [List.mem_singleton.mp h1]; exact hm

theorem findKey_mem {k : ℕ × ℕ} {c : Cache} {i : ℕ}
    (h : findKey k c = some i) : (k, i) ∈ c := by
  induction c with
  | nil => simp [findKey] at h
  | cons e rest ih =>
    simp only [findKey] at h
    split at h
    · rename_i heq
      injection h with h2
      have he : e = (k, i) := by
        obtain ⟨e1, e2⟩ := e
        simp only at heq h2
        rw [heq, h2]
      rw [← he]
      exact List.mem_cons_self e rest
    · exact List.mem_cons_of_mem _ (ih h)

theorem midKey_cases (a b : ℕ) : midKey a b = (a, b) ∨ midKey a b = (b, a) := by
  unfold midKey
  split
  · exact Or.inl rfl
  · exact Or.inr rfl

theorem getMidpoint_spec {verts : List Vec3} {cache : Cache} {a b : ℕ}
    (hU : AllUnit verts) (hC : GoodCache verts cache)
    (ha : a < verts.length) (hb : b < verts.length)
    (hd : 0 ≤ dot (vAt verts a) (vAt verts b)) :
    ∃ ext : List Vec3,
      (getMidpoint a b verts cache).2.1 = verts ++ ext ∧
      AllUnit (getMidpoint a b verts cache).2.1 ∧
      GoodCache (getMidpoint a b verts cache).2.1
        (getMidpoint a b verts cache).2.2 ∧
      (getMidpoint a b verts cache).1 <
        (getMidpoint a b verts cache).2.1.length ∧
      vAt (getMidpoint a b verts cache).2.1 (getMidpoint a b verts cache).1 =
        normalize (mid (vAt verts a) (vAt verts b)) := by
  cases hfind : findKey (midKey a b) cache with
  | some i =>
    have hmem := findKey_mem hfind
    obtain ⟨h1, h2, h3, h4⟩ := hC _ hmem
    refine ⟨[], ?_, ?_, ?_, ?_, ?_⟩ <;> simp only [getMidpoint, hfind]
    · simp
    · exact hU
    · exact hC
    · exact h3
    · simp only at h1 h2 h3 h4
      rcases midKey_cases a b with hk | hk <;> rw [hk] at h4
      · exact h4
      · rw [h4, mid_comm]
  | none =>
    have hA := hU _ (vAt_mem ha)
    have hB := hU _ (vAt_mem hb)
    have hmunit : dot (normalize (mid (vAt verts a) (vAt verts b)))
        (normalize (mid (vAt verts a) (vAt verts b))) = 1 :=
      normalize_unit (mid_self_pos hA hB hd)
    have hk1 : (midKey a b).1 < verts.length ∧
        (midKey a b).2 < verts.length := by
      rcases midKey_cases a b with hk | hk <;> rw [hk] <;> exact ⟨‹_›, ‹_›⟩
    refine ⟨[normalize (mid (vAt verts a) (vAt verts b))], ?_, ?_, ?_, ?_, ?_⟩ <;>
      simp only [getMidpoint, hfind]
    · exact AllUnit_append hU hmunit
    · intro e he
      rcases List.mem_cons.mp he with he | he
      · subst he
        refine ⟨?_, ?_, ?_, ?_⟩
        · simp only [List.length_append, List.length_singleton]; omega
        · simp only [List.length_append, List.length_singleton]; omega
        · simp
        · simp only
          rw [vAt_last, vAt_append _ hk1.1, vAt_append _ hk1.2]
          rcases midKey_cases a b with hk | hk <;> rw [hk] <;>
            rw [mid_comm]
      · obtain ⟨h1, h2, h3, h4⟩ := hC e he
        refine ⟨?_, ?_, ?_, ?_⟩
        · simp only [List.length_append]; omega
        · simp only [List.length_append]; omega
        · simp only [List.length_append]; omega
        · rw [vAt_append _ h3, vAt_append _ h1, vAt_append _ h2]; exact h4
    · simp
    · exact vAt_last verts _

end Geodesic

namespace Geodesic

theorem subdivFace_spec {st : SubSt} {f : Face} (hst : GoodSt st)
    (hf : GoodFace st.verts f) :
    GoodSt (subdivFace st f) ∧
    ∃ ext, (subdivFace st f).verts = st.verts ++ ext := by
  obtain ⟨hU, hC, hNF⟩ := hst
  obtain ⟨⟨ha, hb1, dAB⟩, ⟨hb2, hc1, dBC⟩, ⟨hc2, ha2, dCA⟩⟩ := hf
  have dBA : 0 ≤ dot (vAt st.verts f.2.1) (vAt st.verts f.1) := by
    rw [dot_comm]; exact dAB
  have dCB : 0 ≤ dot (vAt st.verts f.2.2) (vAt st.verts f.2.1) := by
    rw [dot_comm]; exact dBC
  have dAC : 0 ≤ dot (vAt st.verts f.1) (vAt st.verts f.2.2) := by
    rw [dot_comm]; exact dCA
  have uA : dot (vAt st.verts f.1) (vAt st.verts f.1) = 1 := hU _ (vAt_mem ha)
  have uB : dot (vAt st.verts f.2.1) (vAt st.verts f.2.1) = 1 :=
    hU _ (vAt_mem hb1)
  have uC : dot (vAt st.verts f.2.2) (vAt st.verts f.2.2) = 1 :=
    hU _ (vAt_mem hc1)
  obtain ⟨e1, hv1, hU1, hC1, hi1, heq1⟩ := getMidpoint_spec hU hC ha hb1 dAB
  set r1 := getMidpoint f.1 f.2.1 st.verts st.cache with hr1def
  have hb1' : f.2.1 < r1.2.1.length := by
    rw [hv1]; simp only [List.length_append]; omega
  have hc1' : f.2.2 < r1.2.1.length := by
    rw [hv1]; simp only [List.length_append]; omega
  have dBC' : 0 ≤ dot (vAt r1.2.1 f.2.1) (vAt r1.2.1 f.2.2) := by
    rw [hv1, vAt_append _ hb2, vAt_append _ hc1]; exact dBC
  obtain ⟨e2, hv2, hU2, hC2, hi2, heq2⟩ :=
    getMidpoint_spec hU1 hC1 hb1' hc1' dBC'
  set r2 := getMidpoint f.2.1 f.2.2 r1.2.1 r1.2.2 with hr2def
  rw [hv1, vAt_append _ hb2, vAt_append _ hc1] at heq2
  have hlen2 : r2.2.1 = st.verts ++ (e1 ++ e2) := by
    rw [hv2, hv1, List.append_assoc]
  have hc2' : f.2.2 < r2.2.1.length := by
    rw [hlen2]; simp only [List.length_append]; omega
  have ha2' : f.1 < r2.2.1.length := by
    rw [hlen2]; simp only [List.length_append]; omega
  have dCA' : 0 ≤ dot (vAt r2.2.1 f.2.2) (vAt r2.2.1 f.1) := by
    rw [hlen2, vAt_append _ hc2, vAt_append _ ha]; exact dCA
  obtain ⟨e3, hv3, hU3, hC3, hi3, heq3⟩ :=
    getMidpoint_spec hU2 hC2 hc2' ha2' dCA'
  set r3 := getMidpoint f.2.2 f.1 r2.2.1 r2.2.2 with hr3def
  rw [hlen2, vAt_append _ hc2, vAt_append _ ha] at heq3
  have hlen3 : r3.2.1 = st.verts ++ (e1 ++ e2 ++ e3) := by
    rw [hv3, hlen2]
    simp [List.append_assoc]
  have hchain13 : r3.2.1 = r1.2.1 ++ (e2 ++ e3) := by
    rw [hv3, hv2, List.append_assoc]
  have hP : vAt r3.2.1 r1.1 =
      normalize (mid (vAt st.verts f.1) (vAt st.verts f.2.1)) := by
    rw [hchain13, vAt_append _ hi1, heq1]
  have hQ : vAt r3.2.1 r2.1 =
      normalize (mid (vAt st.verts f.2.1) (vAt st.verts f.2.2)) := by
    rw [hv3, vAt_append _ hi2, heq2]
  have hR : vAt r3.2.1 r3.1 =
      normalize (mid (vAt st.verts f.2.2) (vAt st.verts f.1)) := heq3
  have hAv : vAt r3.2.1 f.1 = vAt st.verts f.1 := by
    rw [hlen3, vAt_append _ ha]
  have hBv : vAt r3.2.1 f.2.1 = vAt st.verts f.2.1 := by
    rw [hlen3, vAt_append _ hb1]
  have hCv : vAt r3.2.1 f.2.2 = vAt st.verts f.2.2 := by
    rw [hlen3, vAt_append _ hc1]
  have bA : f.1 < r3.2.1.length := by
    rw [hlen3]; simp only [List.length_append]; omega
  have bB : f.2.1 < r3.2.1.length := by
    rw [hlen3]; simp only [List.length_append]; omega
  have bC : f.2.2 < r3.2.1.length := by
    rw [hlen3]; simp only [List.length_append]; omega
  have bP : r1.1 < r3.2.1.length := by
    rw [hchain13]; simp only [List.length_append]; omega
  have bQ : r2.1 < r3.2.1.length := by
    rw [hv3]; simp only [List.length_append]; omega
  have bR : r3.1 < r3.2.1.length := hi3
  have hsub : subdivFace st f =
      ⟨r3.2.1, r3.2.2,
        st.newFaces ++ [(f.1, r1.1, r3.1), (f.2.1, r2.1, r1.1),
          (f.2.2, r3.1, r2.1), (r1.1, r2.1, r3.1)]⟩ := rfl
  rw [hsub]
  refine ⟨⟨hU3, hC3, ?_⟩, ⟨e1 ++ e2 ++ e3, hlen3⟩⟩
  intro g hg
  rcases List.mem_append.mp hg with hold | hnew
  · rw [hlen3]
    exact GoodFace_append _ (hNF g hold)
  · have mAB := mid_comm (vAt st.verts f.1) (vAt st.verts f.2.1)
    have mBC := mid_comm (vAt st.verts f.2.1) (vAt st.verts f.2.2)
    have mCA := mid_comm (vAt st.verts f.2.2) (vAt st.verts f.1)
    simp only [List.mem_cons, List.not_mem_nil, or_false] at hnew
    rcases hnew with rfl | rfl | rfl | rfl
    ·
      refine ⟨⟨bA, bP, ?_⟩, ⟨bP, bR, ?_⟩, ⟨bR, bA, ?_⟩⟩
      · rw [hAv, hP]
        exact dot_corner_midpoint uA dAB
      · rw [hP, hR, mCA]
        exact dot_midpoint_midpoint uA dAB dAC dBC
      · rw [hR, hAv, dot_comm, mCA]
        exact dot_corner_midpoint uA dAC
    ·
      refine ⟨⟨bB, bQ, ?_⟩, ⟨bQ, bP, ?_⟩, ⟨bP, bB, ?_⟩⟩
      · rw [hBv, hQ]
        exact dot_corner_midpoint uB dBC
      · rw [hQ, hP, mAB]
        exact dot_midpoint_midpoint uB dBC dBA dCA
      · rw [hP, hBv, dot_comm, mAB]
        exact dot_corner_midpoint uB dBA
    ·
      refine ⟨⟨bC, bR, ?_⟩, ⟨bR, bQ, ?_⟩, ⟨bQ, bC, ?_⟩⟩
      · rw [hCv, hR]
        exact dot_corner_midpoint uC dCA
      · rw [hR, hQ, mBC]
        exact dot_midpoint_midpoint uC dCA dCB dAB
      · rw [hQ, hCv, dot_comm, mBC]
        exact dot_corner_midpoint uC dCB
    ·
      refine ⟨⟨bP, bQ, ?_⟩, ⟨bQ, bR, ?_⟩, ⟨bR, bP, ?_⟩⟩
      · rw [hP, hQ, mAB]
        exact dot_midpoint_midpoint uB dBA dBC dAC
      · rw [hQ, hR, mBC]
        exact dot_midpoint_midpoint uC dCB dCA dBA
      · rw [hR, hP, mCA]
        exact dot_midpoint_midpoint uA dAC dAB dCB

end Geodesic

namespace Geodesic

theorem GoodCache_nil (verts : List Vec3) : GoodCache verts [] := by
  intro e he
  exact absurd he (List.not_mem_nil e)

theorem foldl_spec (faces : List Face) :
    ∀ st : SubSt, GoodSt st → (∀ f ∈ faces, GoodFace st.verts f) →
      GoodSt (faces.foldl subdivFace st) ∧
        ∃ ext, (faces.foldl subdivFace st).verts = st.verts ++ ext := by
  induction faces with
  | nil =>
    intro st h _
    exact ⟨h, [], by simp⟩
  | cons f rest ih =>
    intro st hst hfaces
    have hf := hfaces f (List.mem_cons_self f rest)
    obtain ⟨hst', ext, hext⟩ := subdivFace_spec hst hf
    have hrest : ∀ g ∈ rest, GoodFace (subdivFace st f).verts g := by
      intro g hg
      rw [hext]
      exact GoodFace_append _ (hfaces g (List.mem_cons_of_mem f hg))
    obtain ⟨hfin, ext2, hext2⟩ := ih (subdivFace st f) hst' hrest
    refine ⟨hfin, ext ++ ext2, ?_⟩
    rw [List.foldl_cons, hext2, hext, List.append_assoc]

theorem subdivRound_spec {verts : List Vec3} {faces : List Face}
    {cache : Cache} (hU : AllUnit verts) (hC : GoodCache verts cache)
    (hF : ∀ f ∈ faces, GoodFace verts f) :
    GoodSt (subdivRound verts faces cache) :=
  (foldl_spec faces ⟨verts, cache, []⟩
    ⟨hU, hC, by intro f hf; exact absurd hf (List.not_mem_nil f)⟩ hF).1

theorem baseVertices_length : baseVertices.length = 12 := by
  simp [baseVertices, rawVertices]

theorem normalize_phiVec_zv0 : normalize (phiVec zv0) = ((0 : ℝ), 0, 0) := by
  simp [normalize, phiVec, phiVal, zv0]

theorem vAt_base (i : ℕ) :
    vAt baseVertices i = normalize (phiVec (rawVertices.getD i zv0)) := by
  unfold vAt baseVertices
  rw [show ((0:ℝ), (0:ℝ), (0:ℝ)) = normalize (phiVec zv0) from
    normalize_phiVec_zv0.symm]
  rw [List.getD_eq_getElem?_getD, List.getD_eq_getElem?_getD,
    List.getElem?_map]
  cases rawVertices[i]? <;> rfl

theorem phiVal_two_one_pos : 0 < phiVal (2, 1) := by
  have := phi_pos
  simp only [phiVal]
  push_cast
  linarith

theorem phiVal_zero_one_nonneg : 0 ≤ phiVal (0, 1) := by
  have := phi_pos
  simp only [phiVal]
  push_cast
  linarith

theorem baseVertices_unit : AllUnit baseVertices := by
  intro v hv
  simp only [baseVertices, List.mem_map] at hv
  obtain ⟨u, hu, rfl⟩ := hv
  apply normalize_unit
  rw [dot_phiVec, raw_self_dot u hu]
  exact phiVal_two_one_pos

theorem baseFaces_good : ∀ f ∈ baseFaces, GoodFace baseVertices f := by
  intro f hf
  obtain ⟨h1, h2, h3⟩ := baseFaces_bounds f hf
  obtain ⟨d1, d2, d3⟩ := raw_face_dots f hf
  have hlen := baseVertices_length
  refine ⟨⟨by omega, by omega, ?_⟩, ⟨by omega, by omega, ?_⟩,
    ⟨by omega, by omega, ?_⟩⟩
  · rw [vAt_base, vAt_base]
    apply dot_normalize_nonneg
    rw [dot_phiVec, d1]
    exact phiVal_zero_one_nonneg
  · rw [vAt_base, vAt_base]
    apply dot_normalize_nonneg
    rw [dot_phiVec, d2]
    exact phiVal_zero_one_nonneg
  · rw [vAt_base, vAt_base]
    apply dot_normalize_nonneg
    rw [dot_phiVec, d3]
    exact phiVal_zero_one_nonneg

theorem createGeodesicSphere_inv (s : ℕ) :
    AllUnit (createGeodesicSphere s).1 ∧
      ∀ f ∈ (createGeodesicSphere s).2,
        GoodFace (createGeodesicSphere s).1 f := by
  induction s with
  | zero => exact ⟨baseVertices_unit, baseFaces_good⟩
  | succ n ih =>
    obtain ⟨hU, hF⟩ := ih
    have hround := subdivRound_spec hU (GoodCache_nil _) hF
    exact ⟨hround.1, hround.2.2⟩

theorem createGeodesicSphere_count (s : ℕ) :
    (createGeodesicSphere s).2.length = 20 * 4 ^ s := by
  induction s with
  | zero => rfl
  | succ n ih =>
    show (subdivRound (createGeodesicSphere n).1
      (createGeodesicSphere n).2 []).newFaces.length = _
    rw [subdivRound_length, ih]
    ring

theorem aux_count (n : ℕ) :
    ∀ (v : List Vec3) (f : List Face) (c : Cache),
      (subdivideIcosahedronAux n v f c).2.1.length = 4 ^ n * f.length := by
  induction n with
  | zero => intro v f c; simp [subdivideIcosahedronAux]
  | succ m ih =>
    intro v f c
    show (subdivideIcosahedronAux m _ _ _).2.1.length = _
    rw [ih, subdivRound_length]
    ring

theorem aux_inv (n : ℕ) :
    ∀ (v : List Vec3) (f : List Face) (c : Cache),
      AllUnit v → GoodCache v c → (∀ x ∈ f, GoodFace v x) →
      AllUnit (subdivideIcosahedronAux n v f c).1 := by
  induction n with
  | zero => intro v f c hU _ _; exact hU
  | succ m ih =>
    intro v f c hU hC hF
    have hround := subdivRound_spec hU hC hF
    exact ih _ _ _ hround.1 hround.2.1 hround.2.2

/-- C3: for every subdivision count s, createGeodesicSphere produces
exactly 20 * 4 ^ s triangular faces and every vertex of its vertex list
has Euclidean norm one, and likewise for subdivideIcosahedron run on the
20-face icosahedron; every midpoint is re-normalized onto the unit
sphere. -/
theorem geodesic_sphere_face_count_and_unit_norm (s : ℕ) :
    ((createGeodesicSphere s).2.length = 20 * 4 ^ s ∧
      ∀ v ∈ (createGeodesicSphere s).1, Real.sqrt (dot v v) = 1) ∧
    ((subdivideIcosahedron baseVertices baseFaces s).2.length = 20 * 4 ^ s ∧
      ∀ v ∈ (subdivideIcosahedron baseVertices baseFaces s).1,
        Real.sqrt (dot v v) = 1) := by
  have sqrt1 : ∀ (L : List Vec3), AllUnit L →
      ∀ v ∈ L, Real.sqrt (dot v v) = 1 := by
    intro L hL v hv
    rw [hL v hv, Real.sqrt_one]
  refine ⟨⟨createGeodesicSphere_count s,
    sqrt1 _ (createGeodesicSphere_inv s).1⟩, ?_, ?_⟩
  · show (subdivideIcosahedronAux s baseVertices baseFaces []).2.1.length = _
    rw [aux_count, show baseFaces.length = 20 from rfl]
    ring
  · exact sqrt1 _ (aux_inv s baseVertices baseFaces [] baseVertices_unit
      (GoodCache_nil _) baseFaces_good)

end Geodesic
